import Mathlib

/-
Shallow embedding of sruffell/timewarrior-timesheet-report (src/src/lib.rs).

Modelling conventions:
* Rust i64 values are Lean Int; the accumulating addition in
  Report::from_intervals is modelled with explicit wrapping to the i64
  range (release-mode two's-complement semantics).
* rust_decimal Decimal values appearing in a Report are always multiples
  of 0.1 (they are produced by round_dp_with_strategy(1, RoundHalfUp) or
  by sums of such values), so each is modelled as a pair of its value in
  tenths and its display scale (0 or 1).  Decimal division by 3600
  followed by rounding to one fractional digit is modelled as exact
  rounding of seconds/360 tenths: the 28-significant-digit precision of
  Decimal division can only err by less than 1e-12 for any i64 input,
  while non-tie quotients are at least 1/3600 away from a rounding
  midpoint, and tie quotients (seconds = 360k+180) are exactly
  representable, so the two computations agree on every i64 input.
* External collaborators (the clock, the local timezone offset, and the
  serde_json string parsers) are parameters collected in Ext; everything
  downstream of them is translated from the source.
* chrono NaiveDateTime::parse_from_str with format %Y%m%dT%H%M%SZ is
  translated from chrono 0.4 (format/parse.rs and scan.rs): numeric
  fields skip leading whitespace, parse 1..=max digits greedily, the
  year accepts an explicit sign (then with an unbounded digit count),
  and the parsed fields are validated against the proleptic Gregorian
  calendar (seconds up to 60 accepted, 60 standing for a leap second).
-/

namespace Timesheet

/-- The Unicode White_Space code points, as used by Rust str::trim and
char::is_whitespace (and hence by chrono's numeric-field scanning). -/
def rustIsWhitespace (c : Char) : Bool :=
  (9 ≤ c.toNat && c.toNat ≤ 13) || c.toNat = 32 || c.toNat = 133 || c.toNat = 160 ||
  c.toNat = 5760 || (8192 ≤ c.toNat && c.toNat ≤ 8202) || c.toNat = 8232 ||
  c.toNat = 8233 || c.toNat = 8239 || c.toNat = 8287 || c.toNat = 12288

/-- Rust str::trim. -/
def rustTrim (s : String) : String :=
  String.mk (((s.data.dropWhile rustIsWhitespace).reverse.dropWhile rustIsWhitespace).reverse)

/-- Rust str::trim_matches with a single char pattern: strips every
leading and trailing occurrence of the char. -/
def trimMatchesChar (c : Char) (s : String) : String :=
  String.mk (((s.data.dropWhile (· = c)).reverse.dropWhile (· = c)).reverse)

/-- Two's-complement wrap-around to the i64 range, the release-mode
semantics of Rust i64 addition. -/
def wrapI64 (x : Int) : Int :=
  (x + 2 ^ 63) % 2 ^ 64 - 2 ^ 63

/-- The error kinds of lib.rs (enum ErrorKind).  The spec renames them:
NoProjectsDefinedInConfig = NoProjectsConfigured,
IntervalWithNoProjects = NoProjectMatched,
IntervalWithMoreThanOneProject = AmbiguousProject,
FailedToParseConfig = MalformedProjectsConfig / MalformedConfigLine,
FailedToParseInclusions = MalformedIntervalRecord / MalformedTimestamp. -/
inductive ErrorKind where
  | Unknown
  | NoProjectsDefinedInConfig
  | IntervalWithNoProjects
  | IntervalWithMoreThanOneProject
  | FailedToParseConfig
  | FailedToParseInclusions
deriving DecidableEq

/-- Errors escaping run: either a lib.rs Error of some ErrorKind, or a
boxed serde_json::Error (returned as-is by parse_projects). -/
inductive RunError where
  | kind : ErrorKind → RunError
  | serdeJson : RunError
deriving DecidableEq

/-- A parsed serde_json::Value.  Numbers are modelled as integers (the
claims never involve non-integer JSON numbers). -/
inductive JsonValue where
  | null
  | bool (b : Bool)
  | num (n : Int)
  | str (s : String)
  | arr (elems : List JsonValue)
  | obj (fields : List (String × JsonValue))

def hexDigitStr (n : Nat) : String :=
  String.mk [Char.ofNat (if n < 10 then 48 + n else 87 + n)]

/-- serde_json's escaping of one character inside a JSON string. -/
def escapeJsonChar (c : Char) : String :=
  if c = '"' then "\\\"" else if c = '\\' then "\\\\"
  else if c.toNat = 8 then "\\b" else if c.toNat = 9 then "\\t"
  else if c.toNat = 10 then "\\n" else if c.toNat = 12 then "\\f"
  else if c.toNat = 13 then "\\r"
  else if c.toNat < 32 then "\\u00" ++ hexDigitStr (c.toNat / 16) ++ hexDigitStr (c.toNat % 16)
  else String.mk [c]

def escapeJsonString (cs : List Char) : String :=
  String.join (cs.map escapeJsonChar)

mutual
/-- serde_json::Value::to_string (compact serialization). -/
def serializeJson : JsonValue → String
  | .null => "null"
  | .bool b => if b then "true" else "false"
  | .num n => toString n
  | .str s => "\"" ++ escapeJsonString s.data ++ "\""
  | .arr es => "[" ++ serializeJsonList es ++ "]"
  | .obj fs => "\x7b" ++ serializeJsonFields fs ++ "\x7d"

def serializeJsonList : List JsonValue → String
  | [] => ""
  | [v] => serializeJson v
  | v :: w :: vs => serializeJson v ++ "," ++ serializeJsonList (w :: vs)

def serializeJsonFields : List (String × JsonValue) → String
  | [] => ""
  | [(k, v)] => "\"" ++ escapeJsonString k.data ++ "\":" ++ serializeJson v
  | (k, v) :: g :: fs =>
      "\"" ++ escapeJsonString k.data ++ "\":" ++ serializeJson v ++ "," ++
        serializeJsonFields (g :: fs)
end

/-- An Inclusion record (struct Inclusion), after serde_json
deserialization; end, tags and annotation carry their serde defaults
when absent. -/
structure Inclusion where
  id : Int
  start : String
  «end» : String
  tags : List String
  annotation : String
deriving DecidableEq

/-- An Interval (struct Interval).  The source also stores the originating
Inclusion (field inclusion), which no later code reads; it is omitted. -/
structure Interval where
  project : String
  total_seconds : Int
  weekday : Nat
deriving DecidableEq

/-- External collaborators of the core: the clock (Local::now, as epoch
seconds), the local timezone offset (seconds east of UTC; modelled as a
fixed offset), and the two serde_json::from_str parsers. -/
structure Ext where
  now : Int
  tz : Int
  parseInclusion : String → Option Inclusion
  parseJson : String → Option JsonValue

/-- IntervalFactory::parse_projects, given the serde-parsed Value: each
array element is serialized back to a string and stripped of surrounding
double quotes; a non-array is FailedToParseConfig; a serde parse error is
returned as the boxed serde_json::Error. -/
def parse_projects (ext : Ext) (json : String) : Except RunError (List String) :=
  match ext.parseJson json with
  | none => .error .serdeJson
  | some v =>
    match v with
    | .arr elems => .ok (elems.map (fun e => trimMatchesChar '"' (serializeJson e)))
    | _ => .error (.kind .FailedToParseConfig)

/-- chrono scan::number digit consumption: up to max digits, greedily. -/
def scanDigits : Nat → List Char → List Char × List Char
  | 0, cs => ([], cs)
  | _ + 1, [] => ([], [])
  | n + 1, c :: cs =>
    if c.isDigit then
      let r := scanDigits n cs
      (c :: r.1, r.2)
    else ([], c :: cs)

def digitVal (c : Char) : Nat :=
  c.toNat - 48

def digitsVal (ds : List Char) : Nat :=
  ds.foldl (fun a c => 10 * a + digitVal c) 0

def maxI64 : Nat := 2 ^ 63 - 1

/-- chrono scan::number: consume 1..=max digits; no digit at all, or i64
overflow of the accumulated value, is a parse error. -/
def scanNumber (max : Nat) (cs : List Char) : Option (Nat × List Char) :=
  let r := scanDigits max cs
  if r.1 = [] then none
  else if digitsVal r.1 ≤ maxI64 then some (digitsVal r.1, r.2) else none

/-- chrono's parsing of the signed numeric item Numeric::Year: an
explicit sign admits an unbounded digit count, otherwise at most the
nominal width 4 is consumed. -/
def scanSignedYear (cs : List Char) : Option (Int × List Char) :=
  match cs with
  | [] => none
  | c :: rest =>
    if c = '-' then (scanNumber rest.length rest).map (fun r => (-(r.1 : Int), r.2))
    else if c = '+' then (scanNumber rest.length rest).map (fun r => ((r.1 : Int), r.2))
    else (scanNumber 4 (c :: rest)).map (fun r => ((r.1 : Int), r.2))

def expectChar (c : Char) : List Char → Option (List Char)
  | [] => none
  | d :: rest => if d = c then some rest else none

/-- The numeric fields recovered by chrono's Parsed for our format. -/
structure ParsedTS where
  year : Int
  month : Nat
  day : Nat
  hour : Nat
  minute : Nat
  second : Nat
deriving DecidableEq

def isLeapYear (y : Int) : Bool :=
  decide ((y % 4 = 0 ∧ y % 100 ≠ 0) ∨ y % 400 = 0)

def daysInMonth (y : Int) (m : Nat) : Nat :=
  match m with
  | 1 => 31
  | 2 => if isLeapYear y then 29 else 28
  | 3 => 31
  | 4 => 30
  | 5 => 31
  | 6 => 30
  | 7 => 31
  | 8 => 31
  | 9 => 30
  | 10 => 31
  | 11 => 30
  | 12 => 31
  | _ => 0

/-- The validation chrono applies when turning Parsed into a
NaiveDateTime: year within NaiveDate's range (plus or minus i32 shifted
by 13 bits), a real proleptic-Gregorian calendar date, hour to 23,
minute to 59, second to 60 (60 = leap second). -/
def validParsedTS (p : ParsedTS) : Bool :=
  decide (-262144 ≤ p.year) && decide (p.year ≤ 262143) &&
  decide (1 ≤ p.month) && decide (p.month ≤ 12) &&
  decide (1 ≤ p.day) && decide (p.day ≤ daysInMonth p.year p.month) &&
  decide (p.hour ≤ 23) && decide (p.minute ≤ 59) && decide (p.second ≤ 60)

/-- chrono NaiveDateTime::parse_from_str with format %Y%m%dT%H%M%SZ:
each numeric item first skips leading whitespace, then consumes digits
greedily up to its width; the two literal items must match exactly; the
whole input must be consumed; the collected fields are validated. -/
def chronoParseTS (cs0 : List Char) : Option ParsedTS := do
  let cs := cs0.dropWhile rustIsWhitespace
  let (y, cs) ← scanSignedYear cs
  let cs := cs.dropWhile rustIsWhitespace
  let (mo, cs) ← scanNumber 2 cs
  let cs := cs.dropWhile rustIsWhitespace
  let (d, cs) ← scanNumber 2 cs
  let cs ← expectChar 'T' cs
  let cs := cs.dropWhile rustIsWhitespace
  let (h, cs) ← scanNumber 2 cs
  let cs := cs.dropWhile rustIsWhitespace
  let (mi, cs) ← scanNumber 2 cs
  let cs := cs.dropWhile rustIsWhitespace
  let (s, cs) ← scanNumber 2 cs
  let cs ← expectChar 'Z' cs
  if cs = [] then
    let p : ParsedTS := ⟨y, mo, d, h, mi, s⟩
    if validParsedTS p then some p else none
  else none

/-- Days since 1970-01-01 of a proleptic-Gregorian date (the arithmetic
underlying chrono's NaiveDate). -/
def daysFromCivil (y : Int) (m d : Nat) : Int :=
  let y2 : Int := if m ≤ 2 then y - 1 else y
  let era : Int := Int.fdiv y2 400
  let yoe : Int := y2 - era * 400
  let doy : Int := (Int.ofNat ((153 * (if m ≤ 2 then m + 9 else m - 3) + 2) / 5 + d)) - 1
  let doe : Int := yoe * 365 + Int.fdiv yoe 4 - Int.fdiv yoe 100 + doy
  era * 146097 + doe - 719468

/-- The UTC instant, in epoch seconds, denoted by parsed fields.  A
second field of 60 (leap second) is carried by chrono as second 59 plus
a nanosecond overflow, which Duration::num_seconds truncates away; it is
modelled as second 59. -/
def tsEpoch (p : ParsedTS) : Int :=
  daysFromCivil p.year p.month p.day * 86400 +
    ((p.hour * 3600 + p.minute * 60 + min p.second 59 : Nat) : Int)

/-- IntervalFactory::string_to_datetime: the empty string yields
Local::now(); otherwise the chrono parse of the fixed format, with the
result converted to the local timezone (the instant is unchanged). -/
def string_to_datetime (ext : Ext) (datetime : String) : Except ErrorKind Int :=
  if datetime = "" then .ok ext.now
  else
    match chronoParseTS datetime.data with
    | some p => .ok (tsEpoch p)
    | none => .error .FailedToParseInclusions

/-- chrono Datelike::weekday().num_days_from_monday() of the local-time
instant: 1970-01-01 was a Thursday (3 days after Monday). -/
def localWeekday (ext : Ext) (t : Int) : Nat :=
  ((Int.fdiv (t + ext.tz) 86400 + 3) % 7).toNat

/-- The tag loop of IntervalFactory::new_interval: tags present in the
registry fill the project slot; a member tag found while the slot is
non-empty is IntervalWithMoreThanOneProject; other tags are skipped. -/
def scanTags (valid : List String) : List String → String → Except ErrorKind String
  | [], p => .ok p
  | t :: ts, p =>
    if valid.contains t then
      if p = "" then scanTags valid ts t
      else .error .IntervalWithMoreThanOneProject
    else scanTags valid ts p

/-- IntervalFactory::new_interval: registry presence and non-emptiness
check, serde parse of the record, tag scan, empty-slot check, datetime
decoding of start and end, duration and weekday computation. -/
def new_interval (ext : Ext) (valid_projects : Option (List String)) (raw_json : String) :
    Except ErrorKind Interval :=
  match valid_projects with
  | none => .error .NoProjectsDefinedInConfig
  | some projects =>
    if projects.length = 0 then .error .NoProjectsDefinedInConfig
    else
      match ext.parseInclusion raw_json with
      | none => .error .FailedToParseInclusions
      | some inc =>
        match scanTags projects inc.tags "" with
        | .error e => .error e
        | .ok project =>
          if project = "" then .error .IntervalWithNoProjects
          else
            match string_to_datetime ext inc.start with
            | .error e => .error e
            | .ok start =>
              match string_to_datetime ext inc.«end» with
              | .error e => .error e
              | .ok stop =>
                .ok { project := project
                      total_seconds := stop - start
                      weekday := localWeekday ext start }

/-- Number of weekday columns (const WEEKDAYS). -/
def WEEKDAYS : Nat := 7

/-- A rust_decimal Decimal as it occurs in a Report: always a multiple
of 0.1, represented by its value in tenths plus its display scale
(s1 = true: one fractional digit; s1 = false: scale zero).  Decimal
equality, used for the zero test when rendering, ignores the scale. -/
structure Dec where
  t : Int
  s1 : Bool
deriving DecidableEq

/-- Decimal addition: values add; the result's scale is the larger of
the two operand scales (rust_decimal rescales the smaller operand). -/
def Dec.add (a b : Dec) : Dec :=
  ⟨a.t + b.t, a.s1 || b.s1⟩

def Dec.zero : Dec := ⟨0, false⟩

/-- A running Decimal sum starting from Decimal::new(0, 0). -/
def sumDec (l : List Dec) : Dec :=
  l.foldl Dec.add Dec.zero

/-- (Decimal::new(sec, 0) / seconds_per_hour).round_dp_with_strategy(1,
RoundingStrategy::RoundHalfUp), in tenths.  RoundHalfUp is
rust_decimal's midpoint-away-from-zero strategy. -/
def roundCellTenths (sec : Int) : Int :=
  sec.sign * (((sec.natAbs + 180) / 360 : Nat) : Int)

/-- The full Decimal cell: the division result has scale 0 exactly when
sec is divisible by 3600 (round_dp then leaves it untouched); every
other division result is rounded to scale 1. -/
def cellDec (sec : Int) : Dec :=
  ⟨roundCellTenths sec, !(decide ((3600 : Int) ∣ sec))⟩

/-- One i64 seven-slot day bucket updated at one weekday (the += in
from_intervals' first loop). -/
def rowUpdate (r : Nat → Int) (w0 : Nat) (s : Int) : Nat → Int :=
  fun w => if w = w0 then wrapI64 (r w + s) else r w

/-- One step of from_intervals' first loop on the BTreeMap<&str,
Vec<i64>>; entry(...).or_insert(vec![0; 7]) materializes a zero row. -/
def rawUpdate (m : String → Option (Nat → Int)) (i : Interval) : String → Option (Nat → Int) :=
  fun p =>
    if p = i.project then
      some (rowUpdate ((m i.project).getD (fun _ => 0)) i.weekday i.total_seconds)
    else m p

/-- The accumulated-seconds map of from_intervals' first loop. -/
def rawData (l : List Interval) : String → Option (Nat → Int) :=
  l.foldl rawUpdate (fun _ => none)

def rawAt (l : List Interval) (p : String) (w : Nat) : Int :=
  ((rawData l p).getD (fun _ => 0)) w

/-- from_intervals' first loop with the indexing made explicit: the
weekday is converted u32 to usize and used to index a 7-element Vec,
which panics when out of range; the panic is modelled by none. -/
def rawDataChecked (l : List Interval) : Option (String → Option (Nat → Int)) :=
  l.foldlM
    (fun m i => if i.weekday < WEEKDAYS then some (rawUpdate m i) else none)
    (fun _ => none)

/-- Lexicographic order on char lists by code point, which on UTF-8
data coincides with Rust's byte-lexicographic String order (the
ordering of BTreeMap<&str, _> iteration). -/
def charListLe : List Char → List Char → Bool
  | [], _ => true
  | _ :: _, [] => false
  | a :: as, b :: bs =>
    if a.toNat < b.toNat then true
    else if b.toNat < a.toNat then false
    else charListLe as bs

def strLe (a b : String) : Bool :=
  charListLe a.data b.data

/-- The BTreeMap iteration order as a proposition. -/
def StrLeProp (a b : String) : Prop :=
  strLe a b = true

instance : DecidableRel StrLeProp :=
  fun a b => instDecidableEqBool (strLe a b) true

/-- Key insertion as BTreeMap entry(...).or_insert performs it: a fresh
key is added, an existing one left alone. -/
def addKey (ks : List String) (k : String) : List String :=
  if k ∈ ks then ks else ks ++ [k]

/-- The keys of the BTreeMap: the distinct projects occurring in the
interval list, iterated in ascending lexicographic order. -/
def reportKeys (l : List Interval) : List String :=
  (l.foldl (fun ks i => addKey ks i.project) []).insertionSort StrLeProp

def rowCells (r : Nat → Int) : List Dec :=
  (List.range WEEKDAYS).map (fun w => cellDec (r w))

/-- One project row: seven rounded cells followed by the row total,
the running Decimal sum of those rounded cells. -/
def projectRow (r : Nat → Int) : List Dec :=
  rowCells r ++ [sumDec (rowCells r)]

def reportRow (l : List Interval) (p : String) : List Dec :=
  projectRow (fun w => rawAt l p w)

/-- totals[w] after from_intervals' second loop: the column's rounded
cells added onto Decimal::new(0, 0) in ascending key order. -/
def colTotal (l : List Interval) (w : Nat) : Dec :=
  sumDec ((reportKeys l).map (fun p => cellDec (rawAt l p w)))

/-- totals[WEEKDAYS]: the seven column totals summed. -/
def grandTotal (l : List Interval) : Dec :=
  sumDec ((List.range WEEKDAYS).map (fun w => colTotal l w))

def reportTotals (l : List Interval) : List Dec :=
  (List.range WEEKDAYS).map (fun w => colTotal l w) ++ [grandTotal l]

/-- tag_width: the longest key length, floored by len("totals"). -/
def tagWidth (l : List Interval) : Nat :=
  max ((reportKeys l).foldl (fun a k => max a k.length) 0) ("totals".length)

/-- struct Report.  data is modelled as a total function; the renderer
only consults it at members of keys, where it agrees with the BTreeMap
rows. -/
structure Report where
  keys : List String
  data : String → List Dec
  totals : List Dec
  column_width : Nat
  tag_width : Nat

/-- Report::from_intervals (its _options argument is unused in the
source and omitted here). -/
def from_intervals (l : List Interval) : Report :=
  { keys := reportKeys l
    data := fun p => reportRow l p
    totals := reportTotals l
    column_width := 6
    tag_width := tagWidth l }

def padLeft (w : Nat) (s : String) : String :=
  String.mk (List.replicate (w - s.length) ' ') ++ s

def padRight (w : Nat) (s : String) : String :=
  s ++ String.mk (List.replicate (w - s.length) ' ')

def repeatStr (n : Nat) (s : String) : String :=
  String.join (List.replicate n s)

/-- Decimal Display: scale 0 prints the integer value; scale 1 prints
sign, integer part, a dot and one fractional digit. -/
def decToString (d : Dec) : String :=
  if d.s1 then
    (if d.t < 0 then "-" else "") ++ toString (d.t.natAbs / 10) ++ "." ++
      toString (d.t.natAbs % 10)
  else toString (d.t / 10)

/-- One cell written by write_project: a space, the 6-wide right-aligned
Decimal (all blanks when the value equals zero), a space and a bar. -/
def renderCell (cw : Nat) (d : Dec) : String :=
  if d.t = 0 then " " ++ padLeft cw " " ++ " |"
  else " " ++ padLeft cw (decToString d) ++ " |"

/-- write_project: the left-aligned label, a bar, the eight cells, a
newline. -/
def renderRow (tw cw : Nat) (label : String) (cells : List Dec) : String :=
  padRight tw label ++ " |" ++ String.join (cells.map (renderCell cw)) ++ "\n"

def separator (tw cw : Nat) : String :=
  repeatStr tw "=" ++ "=|" ++ repeatStr (WEEKDAYS + 1) ("=" ++ repeatStr cw "=" ++ "=|")

def dayHeaders : List String :=
  ["Mon", "Tue", "Wed", "Thu", "Fri", "Sat", "Sun", "Tot"]

/-- impl fmt::Display for Report. -/
def render (r : Report) : String :=
  repeatStr r.tag_width " " ++ " | " ++
    String.join (dayHeaders.map (fun d => padLeft r.column_width d ++ " | ")) ++
    "\n" ++ separator r.tag_width r.column_width ++ "\n" ++
    String.join (r.keys.map (fun k => renderRow r.tag_width r.column_width k (r.data k))) ++
    separator r.tag_width r.column_width ++ "\n" ++
    renderRow r.tag_width r.column_width "totals" r.totals

/-- The mutable state of run's line loop.  The options HashMap is
modelled by its lookup function (only get and insert are used). -/
structure RunState where
  options_finished : Bool
  intervals : List Interval
  valid_projects : Option (List String)
  options : String → Option String

def initialRunState : RunState :=
  { options_finished := false
    intervals := []
    valid_projects := none
    options := fun _ => none }

/-- run's sentinel branch (line == left bracket): mark the options
finished, look up timesheet.projects and load the registry. -/
def sentinelStep (ext : Ext) (st : RunState) : Except RunError RunState :=
  match st.options "timesheet.projects" with
  | some projects =>
    match parse_projects ext projects with
    | .ok vp => .ok { st with options_finished := true, valid_projects := some vp }
    | .error e => .error e
  | none => .error (.kind .NoProjectsDefinedInConfig)

/-- Rust str::splitn(2, a char): the text before the first occurrence
and the text after it, or nothing when the char does not occur (the
iterator then yields a single part). -/
def splitFirstAt (c : Char) (s : String) : Option (String × String) :=
  let pre := s.data.takeWhile (fun d => !(d = c : Bool))
  match s.data.dropWhile (fun d => !(d = c : Bool)) with
  | [] => none
  | _ :: tail => some (String.mk pre, String.mk tail)

/-- run's header branch: split at the first colon (no colon is
FailedToParseConfig, the spec's MalformedConfigLine), trim the key of
whitespace and colons and the value of whitespace, insert the pair
(overwriting an existing key). -/
def headerStep (st : RunState) (line : String) : Except RunError RunState :=
  match splitFirstAt ':' line with
  | none => .error (.kind .FailedToParseConfig)
  | some (a, b) =>
    let key := trimMatchesChar ':' (rustTrim a)
    let value := rustTrim b
    .ok { st with options := fun k => if k = key then some value else st.options k }

/-- run's body branch: strip leading and trailing commas, build the
interval, push it on success. -/
def bodyStep (ext : Ext) (st : RunState) (line : String) : Except RunError RunState :=
  match new_interval ext st.valid_projects (trimMatchesChar ',' line) with
  | .ok interval => .ok { st with intervals := st.intervals ++ [interval] }
  | .error e => .error (.kind e)

/-- One iteration of run's line loop. -/
def runStep (ext : Ext) (st : RunState) (raw_line : String) : Except RunError RunState :=
  let line := rustTrim raw_line
  if line = "[" then sentinelStep ext st
  else if line ≠ "" ∧ line ≠ "]" then
    if st.options_finished then bodyStep ext st line
    else headerStep st line
  else .ok st

/-- pub fn run: fold the line loop over the input, then aggregate the
collected intervals and render the report to the output sink. -/
def run (ext : Ext) (input : List String) : Except RunError String :=
  (input.foldlM (runStep ext) initialRunState).map
    (fun st => render (from_intervals st.intervals))

/-! Spec-side comparison definitions.  These follow the wording of the
specification (not the source) and exist to be compared with the
definitions above. -/

/-- Following the spec's words for the aggregator's rounding step:
the value, in tenths, of a quantity rounded to one fractional digit
with ties rounded half-away-from-zero. -/
def specRoundTenths (q : ℚ) : ℤ :=
  if 0 ≤ q then ⌊q * 10 + 1 / 2⌋ else -⌊-(q * 10) + 1 / 2⌋

/-- Following the claim's words for string_to_datetime: the input
matches YYYYMMDDTHHMMSSZ, a four-digit year then two-digit month, day,
hours, minutes and seconds with literal T and Z, all fields in range. -/
def strictFormatTS : String → Bool
  | ⟨[y1, y2, y3, y4, m1, m2, d1, d2, t, h1, h2, n1, n2, s1, s2, z]⟩ =>
    y1.isDigit && y2.isDigit && y3.isDigit && y4.isDigit &&
    m1.isDigit && m2.isDigit && d1.isDigit && d2.isDigit &&
    decide (t = 'T') &&
    h1.isDigit && h2.isDigit && n1.isDigit && n2.isDigit &&
    s1.isDigit && s2.isDigit && decide (z = 'Z') &&
    (let y : Int := ((1000 * digitVal y1 + 100 * digitVal y2 + 10 * digitVal y3 + digitVal y4 : Nat) : Int)
     let mo := 10 * digitVal m1 + digitVal m2
     let d := 10 * digitVal d1 + digitVal d2
     let h := 10 * digitVal h1 + digitVal h2
     let mi := 10 * digitVal n1 + digitVal n2
     let sec := 10 * digitVal s1 + digitVal s2
     decide (1 ≤ mo) && decide (mo ≤ 12) && decide (1 ≤ d) &&
     decide (d ≤ daysInMonth y mo) &&
     decide (h ≤ 23) && decide (mi ≤ 59) && decide (sec ≤ 59))
  | _ => false

/-- Following the claim's words for run's body handling: once the
options are finished, EVERY line whose trimmed form is non-empty and
not a closing bracket is stripped of commas and fed to the interval
builder (the sentinel branch is only reachable before that point). -/
def runStepClaim (ext : Ext) (st : RunState) (raw_line : String) : Except RunError RunState :=
  let line := rustTrim raw_line
  if st.options_finished then
    if line ≠ "" ∧ line ≠ "]" then bodyStep ext st line else .ok st
  else if line = "[" then sentinelStep ext st
  else if line ≠ "" ∧ line ≠ "]" then headerStep st line
  else .ok st

/-- run as the claim for its body handling describes it. -/
def runClaim (ext : Ext) (input : List String) : Except RunError String :=
  (input.foldlM (runStepClaim ext) initialRunState).map
    (fun st => render (from_intervals st.intervals))

/-! Concrete fixtures used by witnesses and counterexamples. -/

instance {ε α : Type} [DecidableEq ε] [DecidableEq α] : DecidableEq (Except ε α)
  | .error e, .error f =>
    if h : e = f then .isTrue (by rw [h]) else .isFalse (by simp [h])
  | .error _, .ok _ => .isFalse (by simp)
  | .ok _, .error _ => .isFalse (by simp)
  | .ok a, .ok b =>
    if h : a = b then .isTrue (by rw [h]) else .isFalse (by simp [h])

/-- An environment with inert collaborators. -/
def extNone : Ext :=
  { now := 0, tz := 0, parseInclusion := fun _ => none, parseJson := fun _ => none }

/-- An environment whose JSON parser yields the empty array. -/
def extArrEmpty : Ext :=
  { now := 0, tz := 0, parseInclusion := fun _ => none
    parseJson := fun _ => some (.arr []) }

/-- A record carrying two registry tags. -/
def incTwoTags : Inclusion :=
  { id := 1, start := "", «end» := "", tags := ["alpha", "beta"], annotation := "" }

/-- An environment whose record parser yields incTwoTags. -/
def extTwoTags : Ext :=
  { now := 0, tz := 0
    parseInclusion := fun s => if s = "x" then some incTwoTags else none
    parseJson := fun _ => none }

/-- A well-formed single-tag record on Monday 2024-01-08, 09:00Z to
10:30Z. -/
def incMonday : Inclusion :=
  { id := 1, start := "20240108T090000Z", «end» := "20240108T103000Z"
    tags := ["alpha"], annotation := "" }

/-- An environment whose record parser yields incMonday. -/
def extMonday : Ext :=
  { now := 0, tz := 0
    parseInclusion := fun s => if s = "x" then some incMonday else none
    parseJson := fun _ => none }

/-- Two 180-second intervals of one project on different weekdays: each
cell rounds up to 0.1, so the row total 0.2 differs from 0.1, the
rounding of the unrounded 360-second sum. -/
def twoHalfCells : List Interval :=
  [{ project := "a", total_seconds := 180, weekday := 0 },
   { project := "a", total_seconds := 180, weekday := 1 }]

/-- A two-project interval list and its reversal. -/
def pairList : List Interval :=
  [{ project := "a", total_seconds := 3600, weekday := 0 },
   { project := "b", total_seconds := 1800, weekday := 2 }]

def pairListRev : List Interval :=
  [{ project := "b", total_seconds := 1800, weekday := 2 },
   { project := "a", total_seconds := 3600, weekday := 0 }]

/-- A single negative-duration interval. -/
def negInterval : List Interval :=
  [{ project := "a", total_seconds := -60, weekday := 2 }]

/-- An environment for exercising run: the config value P parses to the
one-element projects array, and no body line parses as a record. -/
def extRun : Ext :=
  { now := 0, tz := 0
    parseInclusion := fun _ => none
    parseJson := fun s => if s = "P" then some (.arr [.str "alpha"]) else none }

/-- An input whose body repeats the sentinel line. -/
def linesSecondSentinel : List String :=
  ["timesheet.projects : P", "[", "["]

/-- A run state after the sentinel has been processed. -/
def stBody : RunState :=
  { options_finished := true
    intervals := []
    valid_projects := some ["alpha"]
    options := fun _ => none }

/-! Helper lemmas. -/

theorem scanTags_filter_invariant (valid ts : List String) (p : String) :
    scanTags valid ts p = scanTags valid (ts.filter (fun t => valid.contains t)) p := by
  induction ts generalizing p with
  | nil => rfl
  | cons t ts ih =>
    by_cases h : valid.contains t
    · have ht : t ∈ valid := by simpa using h
      by_cases hp : p = "" <;> simp [scanTags, h, ht, hp, ih]
    · have ht : t ∉ valid := by simpa using h
      simp [scanTags, h, ht, ih]

theorem scanTags_members_nonempty_slot (valid ts : List String) (p : String)
    (hmem : ∀ t ∈ ts, valid.contains t = true) (hp : p ≠ "") :
    scanTags valid ts p =
      if ts = [] then .ok p else .error .IntervalWithMoreThanOneProject := by
  cases ts with
  | nil => rfl
  | cons t ts =>
    have ht : t ∈ valid := by simpa using hmem t (by simp)
    simp [scanTags, ht, hp]

theorem localWeekday_lt (ext : Ext) (t : Int) : localWeekday ext t < 7 := by
  unfold localWeekday
  have h1 : (Int.fdiv (t + ext.tz) 86400 + 3) % 7 < 7 :=
    Int.emod_lt_of_pos _ (by decide)
  have h2 : 0 ≤ (Int.fdiv (t + ext.tz) 86400 + 3) % 7 :=
    Int.emod_nonneg _ (by decide)
  omega

theorem new_interval_ok_weekday (ext : Ext) (vp : Option (List String)) (raw : String)
    (i : Interval) (h : new_interval ext vp raw = .ok i) :
    ∃ t, i.weekday = localWeekday ext t := by
  unfold new_interval at h
  cases vp with
  | none => simp at h
  | some projects =>
    by_cases hl : projects.length = 0
    · simp [hl] at h
    · simp only [hl, if_false] at h
      cases hpi : ext.parseInclusion raw with
      | none => rw [hpi] at h; simp at h
      | some inc =>
        rw [hpi] at h
        simp only [] at h
        cases hscan : scanTags projects inc.tags "" with
        | error e => rw [hscan] at h; simp at h
        | ok project =>
          rw [hscan] at h
          by_cases hpr : project = ""
          · simp [hpr] at h
          · simp only [hpr, if_false] at h
            cases hst : string_to_datetime ext inc.start with
            | error e => rw [hst] at h; simp at h
            | ok start =>
              rw [hst] at h
              cases hen : string_to_datetime ext inc.«end» with
              | error e => rw [hen] at h; simp at h
              | ok stop =>
                rw [hen] at h
                simp only [Except.ok.injEq] at h
                exact ⟨start, by rw [← h]⟩

/-- C6: parse_projects accepts the empty JSON array, while new_interval
with an empty registry, or with no registry loaded, fails with
NoProjectsDefinedInConfig (the spec's NoProjectsConfigured) whatever the
record is. -/
theorem c6_empty_registry :
    (∀ ext s, ext.parseJson s = some (.arr []) → parse_projects ext s = .ok []) ∧
    (∀ ext raw, new_interval ext (some []) raw = .error .NoProjectsDefinedInConfig) ∧
    (∀ ext raw, new_interval ext none raw = .error .NoProjectsDefinedInConfig) := by
  refine ⟨fun ext s h => ?_, fun ext raw => ?_, fun ext raw => ?_⟩
  · simp [parse_projects, h]
  · simp [new_interval]
  · simp [new_interval]

theorem c6_empty_registry_witness :
    parse_projects extArrEmpty "[]" = .ok [] ∧
    new_interval extArrEmpty (some []) "r" = .error .NoProjectsDefinedInConfig ∧
    new_interval extArrEmpty none "r" = .error .NoProjectsDefinedInConfig :=
  ⟨c6_empty_registry.1 extArrEmpty "[]" rfl,
   c6_empty_registry.2.1 extArrEmpty "r",
   c6_empty_registry.2.2 extArrEmpty "r"⟩

/-- C5: with a loaded non-empty registry of project labels (which the
spec's data model requires to be non-empty strings) and a record the
serde parser accepts, new_interval's tag scan ignores tags outside the
registry; it fails with IntervalWithMoreThanOneProject (the spec's
AmbiguousProject) when a second member tag is seen, the same label
counting again; and it fails with IntervalWithNoProjects (the spec's
NoProjectMatched) when no tag is a member. -/
theorem c5_project_resolution (ext : Ext) (valid : List String) (raw : String)
    (inc : Inclusion) (hne : valid ≠ []) (hlbl : "" ∉ valid)
    (hparse : ext.parseInclusion raw = some inc) :
    scanTags valid inc.tags "" =
      scanTags valid (inc.tags.filter (fun t => valid.contains t)) "" ∧
    (inc.tags.filter (fun t => valid.contains t) = [] →
      new_interval ext (some valid) raw = .error .IntervalWithNoProjects) ∧
    (2 ≤ (inc.tags.filter (fun t => valid.contains t)).length →
      new_interval ext (some valid) raw = .error .IntervalWithMoreThanOneProject) := by
  have hlen : ¬valid.length = 0 := fun h0 => hne (List.length_eq_zero.mp h0)
  refine ⟨scanTags_filter_invariant valid inc.tags "", fun hnil => ?_, fun h2 => ?_⟩
  · have hscan : scanTags valid inc.tags "" = .ok "" := by
      rw [scanTags_filter_invariant, hnil]; rfl
    simp [new_interval, hlen, hparse, hscan]
  · obtain ⟨t1, rest, hms⟩ :
        ∃ t1 rest, inc.tags.filter (fun t => valid.contains t) = t1 :: rest := by
      cases hc : inc.tags.filter (fun t => valid.contains t) with
      | nil => rw [hc] at h2; simp at h2
      | cons a b => exact ⟨a, b, rfl⟩
    have hrest : rest ≠ [] := by
      intro h0
      rw [hms, h0] at h2
      simp at h2
    have hmem : ∀ t ∈ rest, valid.contains t = true := by
      intro t ht
      have hf : t ∈ inc.tags.filter (fun t => valid.contains t) := by
        rw [hms]; exact List.mem_cons_of_mem _ ht
      exact (List.mem_filter.mp hf).2
    have ht1v : t1 ∈ valid := by
      have hf : t1 ∈ inc.tags.filter (fun t => valid.contains t) := by rw [hms]; simp
      simpa using (List.mem_filter.mp hf).2
    have ht1ne : t1 ≠ "" := fun h0 => hlbl (h0 ▸ ht1v)
    have hscan : scanTags valid inc.tags "" = .error .IntervalWithMoreThanOneProject := by
      rw [scanTags_filter_invariant, hms]
      have hstep : scanTags valid (t1 :: rest) "" = scanTags valid rest t1 := by
        simp [scanTags, ht1v]
      rw [hstep, scanTags_members_nonempty_slot valid rest t1 hmem ht1ne, if_neg hrest]
    simp [new_interval, hlen, hparse, hscan]

theorem c5_project_resolution_witness :
    new_interval extTwoTags (some ["alpha", "beta"]) "x" =
      .error .IntervalWithMoreThanOneProject :=
  (c5_project_resolution extTwoTags ["alpha", "beta"] "x" incTwoTags
    (by decide) (by decide) (by decide)).2.2 (by decide)

/-- C9: every interval built by new_interval has its weekday below 7
(weekday 0 falling on a known Monday and 6 on the following Sunday),
and for interval lists satisfying that bound the checked
u32-to-usize-indexed accumulation of from_intervals cannot fail,
agreeing with the total accumulation. -/
theorem c9_weekday_bounds :
    (∀ ext vp raw i, new_interval ext vp raw = .ok i → i.weekday < WEEKDAYS) ∧
    (∀ l : List Interval, (∀ i ∈ l, i.weekday < WEEKDAYS) →
      rawDataChecked l = some (rawData l)) ∧
    localWeekday extNone (19730 * 86400) = 0 ∧
    localWeekday extNone (19736 * 86400) = 6 := by
  refine ⟨fun ext vp raw i h => ?_, fun l hl => ?_, by decide, by decide⟩
  · obtain ⟨t, ht⟩ := new_interval_ok_weekday ext vp raw i h
    rw [ht]; exact localWeekday_lt ext t
  · unfold rawDataChecked rawData
    generalize (fun _ : String => (none : Option (Nat → Int))) = m
    induction l generalizing m with
    | nil => rfl
    | cons i l ih =>
      have hi : i.weekday < WEEKDAYS := hl i (by simp)
      simp only [List.foldlM, List.foldl, hi, if_true]
      exact ih (fun j hj => hl j (by simp [hj])) _

theorem c9_weekday_bounds_witness :
    ∃ i, new_interval extMonday (some ["alpha"]) "x" = .ok i ∧ i.weekday < WEEKDAYS :=
  ⟨{ project := "alpha", total_seconds := 5400, weekday := 0 },
   by decide,
   c9_weekday_bounds.1 extMonday (some ["alpha"]) "x" _ (by decide)⟩

theorem char_eq_of_toNat_eq {a b : Char} (h : a.toNat = b.toNat) : a = b := by
  cases a; cases b
  congr 1
  exact UInt32.ext h

theorem charListLe_total (a b : List Char) :
    charListLe a b = true ∨ charListLe b a = true := by
  induction a generalizing b with
  | nil => left; rfl
  | cons x xs ih =>
    cases b with
    | nil => right; rfl
    | cons y ys =>
      by_cases h1 : x.toNat < y.toNat
      · left; simp [charListLe, h1]
      · by_cases h2 : y.toNat < x.toNat
        · right; simp [charListLe, h2]
        · rcases ih ys with h | h
          · left; simp [charListLe, h1, h2, h]
          · right; simp [charListLe, h1, h2, h]

theorem charListLe_antisymm {a b : List Char}
    (h1 : charListLe a b = true) (h2 : charListLe b a = true) : a = b := by
  induction a generalizing b with
  | nil =>
    cases b with
    | nil => rfl
    | cons y ys => simp [charListLe] at h2
  | cons x xs ih =>
    cases b with
    | nil => simp [charListLe] at h1
    | cons y ys =>
      by_cases hxy : x.toNat < y.toNat
      · simp [charListLe, hxy, Nat.lt_asymm hxy] at h2
      · by_cases hyx : y.toNat < x.toNat
        · simp [charListLe, hxy, hyx] at h1
        · have hx : x = y := char_eq_of_toNat_eq (by omega)
          simp only [charListLe, hxy, hyx, if_false] at h1 h2
          rw [hx, ih h1 h2]

theorem charListLe_trans {a b c : List Char}
    (h1 : charListLe a b = true) (h2 : charListLe b c = true) :
    charListLe a c = true := by
  induction a generalizing b c with
  | nil => rfl
  | cons x xs ih =>
    cases b with
    | nil => simp [charListLe] at h1
    | cons y ys =>
      cases c with
      | nil => simp [charListLe] at h2
      | cons z zs =>
        by_cases hxy : x.toNat < y.toNat <;> by_cases hyz : y.toNat < z.toNat
        · simp [charListLe]; omega
        · by_cases hzy : z.toNat < y.toNat
          · simp [charListLe, hyz, hzy] at h2
          · simp [charListLe]; omega
        · by_cases hyx : y.toNat < x.toNat
          · simp [charListLe, hxy, hyx] at h1
          · simp [charListLe]; omega
        · by_cases hyx : y.toNat < x.toNat
          · simp [charListLe, hxy, hyx] at h1
          · by_cases hzy : z.toNat < y.toNat
            · simp [charListLe, hyz, hzy] at h2
            · have hxz : ¬x.toNat < z.toNat ∧ ¬z.toNat < x.toNat := by omega
              simp only [charListLe, hxy, hyx, if_false] at h1
              simp only [charListLe, hyz, hzy, if_false] at h2
              simp [charListLe, hxz.1, hxz.2, ih h1 h2]

instance : IsTotal String StrLeProp :=
  ⟨fun a b => charListLe_total a.data b.data⟩

instance : IsTrans String StrLeProp :=
  ⟨fun _ _ _ => charListLe_trans⟩

instance : IsAntisymm String StrLeProp :=
  ⟨fun a b h1 h2 => by
    cases a; cases b
    exact congrArg String.mk (charListLe_antisymm h1 h2)⟩

theorem mem_addKey (ks : List String) (k a : String) :
    a ∈ addKey ks k ↔ a ∈ ks ∨ a = k := by
  unfold addKey
  by_cases h : k ∈ ks
  · rw [if_pos h]
    constructor
    · exact Or.inl
    · rintro (ha | rfl)
      · exact ha
      · exact h
  · rw [if_neg h]
    simp

theorem mem_foldl_addKey (l : List Interval) :
    ∀ (ks : List String) (a : String),
      (a ∈ l.foldl (fun ks i => addKey ks i.project) ks ↔
        a ∈ ks ∨ ∃ i ∈ l, i.project = a) := by
  induction l with
  | nil => intro ks a; simp
  | cons i l ih =>
    intro ks a
    rw [List.foldl_cons, ih, mem_addKey]
    constructor
    · rintro ((ha | ha) | ⟨j, hj, hp⟩)
      · exact Or.inl ha
      · exact Or.inr ⟨i, by simp, ha.symm⟩
      · exact Or.inr ⟨j, by simp [hj], hp⟩
    · rintro (ha | ⟨j, hj, hp⟩)
      · exact Or.inl (Or.inl ha)
      · rcases List.mem_cons.mp hj with rfl | hj
        · exact Or.inl (Or.inr hp.symm)
        · exact Or.inr ⟨j, hj, hp⟩

theorem nodup_addKey (ks : List String) (k : String) (h : ks.Nodup) :
    (addKey ks k).Nodup := by
  unfold addKey
  by_cases hk : k ∈ ks
  · rwa [if_pos hk]
  · rw [if_neg hk]
    simpa [List.nodup_append] using ⟨h, hk⟩

theorem nodup_foldl_addKey (l : List Interval) :
    ∀ ks : List String, ks.Nodup →
      (l.foldl (fun ks i => addKey ks i.project) ks).Nodup := by
  induction l with
  | nil => intro ks h; exact h
  | cons i l ih => intro ks h; exact ih _ (nodup_addKey ks i.project h)

/-- C10: a project label is a key of the aggregated report, and hence a
row of the rendered report, exactly when some interval of the list
resolved to it, zero- and negative-duration intervals included; and a
cell whose Decimal value equals zero is rendered as blanks. -/
theorem c10_rows_iff_projects :
    (∀ (l : List Interval) (p : String),
      p ∈ (from_intervals l).keys ↔ ∃ i ∈ l, i.project = p) ∧
    (∀ cw (d : Dec), d.t = 0 → renderCell cw d = " " ++ padLeft cw " " ++ " |") := by
  constructor
  · intro l p
    show p ∈ reportKeys l ↔ _
    rw [reportKeys, (List.perm_insertionSort _ _).mem_iff, mem_foldl_addKey]
    simp
  · intro cw d h
    simp [renderCell, h]

theorem c10_rows_iff_projects_witness :
    "a" ∈ (from_intervals negInterval).keys ∧
    renderCell 6 ⟨0, true⟩ = " " ++ padLeft 6 " " ++ " |" :=
  ⟨(c10_rows_iff_projects.1 negInterval "a").mpr
      ⟨{ project := "a", total_seconds := -60, weekday := 2 }, by simp [negInterval], rfl⟩,
   c10_rows_iff_projects.2 6 ⟨0, true⟩ rfl⟩

theorem getD_append_singleton (l : List Dec) (x d : Dec) :
    (l ++ [x]).getD l.length d = x := by
  induction l with
  | nil => rfl
  | cons a l ih => simpa using ih

theorem projectRow_getD_total (r : Nat → Int) :
    (projectRow r).getD WEEKDAYS Dec.zero = sumDec (rowCells r) := by
  unfold projectRow
  have hlen : (rowCells r).length = WEEKDAYS := by simp [rowCells]
  conv_lhs => rw [← hlen]
  exact getD_append_singleton _ _ _

theorem projectRow_take (r : Nat → Int) :
    (projectRow r).take WEEKDAYS = rowCells r := by
  unfold projectRow
  exact List.take_left' (by simp [rowCells])

theorem foldl_Dec_add_t (l : List Dec) (z : Dec) :
    (l.foldl Dec.add z).t = z.t + (l.map Dec.t).sum := by
  induction l generalizing z with
  | nil => simp
  | cons a l ih => simp [List.foldl, Dec.add, ih]; ring

theorem sumDec_t (l : List Dec) : (sumDec l).t = (l.map Dec.t).sum := by
  simp [sumDec, foldl_Dec_add_t, Dec.zero]

theorem sum_map_add (L : List β) (g h : β → Int) :
    (L.map (fun b => g b + h b)).sum = (L.map g).sum + (L.map h).sum := by
  induction L with
  | nil => simp
  | cons b L ih => simp [ih]; ring

theorem sum_map_comm (L1 : List α) (L2 : List β) (f : α → β → Int) :
    (L1.map (fun a => (L2.map (fun b => f a b)).sum)).sum =
      (L2.map (fun b => (L1.map (fun a => f a b)).sum)).sum := by
  induction L1 with
  | nil => simp
  | cons a L1 ih => simp [sum_map_add, ih]

/-- C1: in the Report of from_intervals every project row's eighth cell
is the Decimal sum of the row's seven already-rounded weekday cells;
and it is not the rounding of the row's unrounded second total: on
twoHalfCells the row total is 0.2 while the rounded raw sum is 0.1. -/
theorem c1_row_total :
    (∀ (l : List Interval), (∀ i ∈ l, i.weekday < WEEKDAYS) →
      ∀ p ∈ (from_intervals l).keys,
        ((from_intervals l).data p).getD WEEKDAYS Dec.zero =
          sumDec (((from_intervals l).data p).take WEEKDAYS)) ∧
    (((from_intervals twoHalfCells).data "a").getD WEEKDAYS Dec.zero).t ≠
      roundCellTenths ((twoHalfCells.map Interval.total_seconds).sum) := by
  constructor
  · intro l _ p _
    show (projectRow _).getD WEEKDAYS Dec.zero = sumDec ((projectRow _).take WEEKDAYS)
    rw [projectRow_getD_total, projectRow_take]
  · decide

theorem c1_row_total_witness :
    ((from_intervals twoHalfCells).data "a").getD WEEKDAYS Dec.zero =
      sumDec (((from_intervals twoHalfCells).data "a").take WEEKDAYS) :=
  c1_row_total.1 twoHalfCells (by decide) "a" (by decide)

/-- C2: the grand total is the Decimal sum of the seven column totals,
and its value also equals the sum of the project rows' totals: both
equalities hold exactly, the columns and rows both summing the same
rounded cells. -/
theorem c2_grand_total (l : List Interval) (h7 : ∀ i ∈ l, i.weekday < WEEKDAYS) :
    (from_intervals l).totals.getD WEEKDAYS Dec.zero =
      sumDec ((from_intervals l).totals.take WEEKDAYS) ∧
    ((from_intervals l).totals.getD WEEKDAYS Dec.zero).t =
      ((from_intervals l).keys.map
        (fun p => (((from_intervals l).data p).getD WEEKDAYS Dec.zero).t)).sum := by
  have hgetD : (from_intervals l).totals.getD WEEKDAYS Dec.zero = grandTotal l := by
    show (reportTotals l).getD WEEKDAYS Dec.zero = grandTotal l
    unfold reportTotals
    have hlen : ((List.range WEEKDAYS).map (fun w => colTotal l w)).length = WEEKDAYS := by
      simp
    conv_lhs => rw [← hlen]
    exact getD_append_singleton _ _ _
  constructor
  · rw [hgetD]
    show grandTotal l = sumDec ((reportTotals l).take WEEKDAYS)
    unfold reportTotals
    rw [List.take_left' (by simp)]
    rfl
  · rw [hgetD]
    have hcol : ∀ w, (colTotal l w).t =
        ((reportKeys l).map (fun p => (cellDec (rawAt l p w)).t)).sum := by
      intro w
      simp [colTotal, sumDec_t, List.map_map, Function.comp_def]
    have hrow : ∀ p, (((from_intervals l).data p).getD WEEKDAYS Dec.zero).t =
        ((List.range WEEKDAYS).map (fun w => (cellDec (rawAt l p w)).t)).sum := by
      intro p
      show ((projectRow _).getD WEEKDAYS Dec.zero).t = _
      rw [projectRow_getD_total]
      simp [sumDec_t, rowCells, List.map_map, Function.comp_def]
    calc (grandTotal l).t
        = ((List.range WEEKDAYS).map (fun w => (colTotal l w).t)).sum := by
          simp [grandTotal, sumDec_t, List.map_map, Function.comp_def]
      _ = ((List.range WEEKDAYS).map
            (fun w => ((reportKeys l).map (fun p => (cellDec (rawAt l p w)).t)).sum)).sum := by
          simp only [hcol]
      _ = ((reportKeys l).map
            (fun p => ((List.range WEEKDAYS).map (fun w => (cellDec (rawAt l p w)).t)).sum)).sum :=
          sum_map_comm _ _ _
      _ = ((from_intervals l).keys.map
            (fun p => (((from_intervals l).data p).getD WEEKDAYS Dec.zero).t)).sum := by
          simp only [hrow]
          rfl

theorem c2_grand_total_witness :
    (from_intervals pairList).totals.getD WEEKDAYS Dec.zero =
      sumDec ((from_intervals pairList).totals.take WEEKDAYS) ∧
    ((from_intervals pairList).totals.getD WEEKDAYS Dec.zero).t =
      ((from_intervals pairList).keys.map
        (fun p => (((from_intervals pairList).data p).getD WEEKDAYS Dec.zero).t)).sum :=
  c2_grand_total pairList (by decide)

/-- The integer formula of the embedding agrees with the spec's exact
rounding of seconds/3600 to one fractional digit, ties away from
zero. -/
theorem roundCellTenths_eq_specRound (s : ℤ) :
    roundCellTenths s = specRoundTenths ((s : ℚ) / 3600) := by
  rcases le_or_lt 0 s with hs | hs
  · have hq : 0 ≤ (s : ℚ) / 3600 := by positivity
    rw [specRoundTenths, if_pos hq]
    have he : (s : ℚ) / 3600 * 10 + 1 / 2 = ((2 * s + 360 : ℤ) : ℚ) / ((720 : ℕ) : ℚ) := by
      push_cast; ring
    rw [he, Rat.floor_intCast_div_natCast]
    rw [roundCellTenths, show ((720 : ℕ) : ℤ) = 720 by norm_num]
    obtain ⟨n, rfl⟩ := Int.eq_ofNat_of_zero_le hs
    rcases Nat.eq_zero_or_pos n with rfl | hn
    · decide
    · have hsign : ((n : ℤ)).sign = 1 := Int.sign_eq_one_of_pos (by exact_mod_cast hn)
      rw [hsign, one_mul, Int.natAbs_ofNat]
      omega
  · have hq : ¬ 0 ≤ (s : ℚ) / 3600 := by
      rw [not_le]
      have hneg : (s : ℚ) < 0 := by exact_mod_cast hs
      exact div_neg_of_neg_of_pos hneg (by norm_num)
    rw [specRoundTenths, if_neg hq]
    have he : -((s : ℚ) / 3600 * 10) + 1 / 2 = ((2 * (-s) + 360 : ℤ) : ℚ) / ((720 : ℕ) : ℚ) := by
      push_cast; ring
    rw [he, Rat.floor_intCast_div_natCast]
    rw [roundCellTenths, Int.sign_eq_neg_one_iff_neg.mpr hs,
        show ((720 : ℕ) : ℤ) = 720 by norm_num]
    omega

/-- C3: each weekday cell of a project row carries, in tenths, the
accumulated signed seconds for that project and weekday divided by
exactly 3600 and rounded to one fractional digit with ties away from
zero, computed exactly. -/
theorem c3_cell_rounding (l : List Interval) (h7 : ∀ i ∈ l, i.weekday < WEEKDAYS)
    (p : String) (hp : p ∈ (from_intervals l).keys) (w : Nat) (hw : w < WEEKDAYS) :
    (((from_intervals l).data p).getD w Dec.zero).t =
      specRoundTenths ((rawAt l p w : ℚ) / 3600) := by
  have hcell : ((from_intervals l).data p).getD w Dec.zero = cellDec (rawAt l p w) := by
    show (projectRow _).getD w Dec.zero = _
    unfold projectRow
    have hlen : w < (rowCells (fun w => rawAt l p w)).length := by simpa [rowCells] using hw
    rw [List.getD_append _ _ _ _ hlen, List.getD_eq_getElem _ _ hlen]
    simp [rowCells]
  rw [hcell]
  exact roundCellTenths_eq_specRound _

theorem c3_cell_rounding_witness :
    (((from_intervals pairList).data "a").getD 0 Dec.zero).t =
      specRoundTenths ((rawAt pairList "a" 0 : ℚ) / 3600) :=
  c3_cell_rounding pairList (by decide) "a" (by decide) 0 (by decide)

theorem wrapI64_add_left (a b : Int) : wrapI64 (wrapI64 a + b) = wrapI64 (a + b) := by
  unfold wrapI64
  rw [show (a + 2 ^ 63) % 2 ^ 64 - 2 ^ 63 + b + 2 ^ 63 = (a + 2 ^ 63) % 2 ^ 64 + b by ring,
      Int.emod_add_emod, show a + 2 ^ 63 + b = a + b + 2 ^ 63 by ring]

theorem rowUpdate_comm (r : Nat → Int) (w1 w2 : Nat) (s1 s2 : Int) :
    rowUpdate (rowUpdate r w1 s1) w2 s2 = rowUpdate (rowUpdate r w2 s2) w1 s1 := by
  funext w
  by_cases e1 : w = w1 <;> by_cases e2 : w = w2
  · have e12 : w1 = w2 := e1.symm.trans e2
    subst e1
    subst e12
    simp only [rowUpdate, eq_self_iff_true, if_true]
    rw [wrapI64_add_left, wrapI64_add_left,
        show r w + s1 + s2 = r w + s2 + s1 by ring]
  · subst e1
    simp [rowUpdate, e2]
  · subst e2
    simp [rowUpdate, e1]
  · simp [rowUpdate, e1, e2]

theorem rawUpdate_comm (m : String → Option (Nat → Int)) (i j : Interval) :
    rawUpdate (rawUpdate m i) j = rawUpdate (rawUpdate m j) i := by
  funext p
  by_cases h3 : i.project = j.project
  · simp only [rawUpdate, h3]
    by_cases h1 : p = j.project
    · simp [h1, rowUpdate_comm]
    · simp [h1]
  · have h3s : ¬j.project = i.project := fun hh => h3 hh.symm
    by_cases h1 : p = j.project <;> by_cases h2 : p = i.project
    · exact absurd (h2.symm.trans h1) h3
    · simp [rawUpdate, h1, h2, h3s]
    · simp [rawUpdate, h1, h2, h3]
    · simp [rawUpdate, h1, h2]

theorem rawData_perm {l₁ l₂ : List Interval} (hp : l₁.Perm l₂) :
    rawData l₁ = rawData l₂ := by
  unfold rawData
  exact hp.foldl_eq' (fun i _ j _ m => rawUpdate_comm m i j) _

theorem reportKeys_perm {l₁ l₂ : List Interval} (hp : l₁.Perm l₂) :
    reportKeys l₁ = reportKeys l₂ := by
  unfold reportKeys
  have hm : ∀ a, a ∈ l₁.foldl (fun ks i => addKey ks i.project) [] ↔
      a ∈ l₂.foldl (fun ks i => addKey ks i.project) [] := by
    intro a
    rw [mem_foldl_addKey, mem_foldl_addKey]
    constructor
    · rintro (h | ⟨i, hi, hpr⟩)
      · simp at h
      · exact Or.inr ⟨i, hp.mem_iff.mp hi, hpr⟩
    · rintro (h | ⟨i, hi, hpr⟩)
      · simp at h
      · exact Or.inr ⟨i, hp.mem_iff.mpr hi, hpr⟩
  have hkp : (l₁.foldl (fun ks i => addKey ks i.project) []).Perm
      (l₂.foldl (fun ks i => addKey ks i.project) []) :=
    (List.perm_ext_iff_of_nodup (nodup_foldl_addKey l₁ [] (by simp))
      (nodup_foldl_addKey l₂ [] (by simp))).mpr hm
  exact List.eq_of_perm_of_sorted
    ((List.perm_insertionSort _ _).trans (hkp.trans (List.perm_insertionSort _ _).symm))
    (List.sorted_insertionSort _ _) (List.sorted_insertionSort _ _)

theorem from_intervals_perm {l₁ l₂ : List Interval} (hp : l₁.Perm l₂) :
    from_intervals l₁ = from_intervals l₂ := by
  have hraw : rawData l₁ = rawData l₂ := rawData_perm hp
  have hkeys : reportKeys l₁ = reportKeys l₂ := reportKeys_perm hp
  simp only [from_intervals, reportRow, reportTotals, grandTotal, colTotal, tagWidth,
    rawAt, hraw, hkeys]

/-- C4: aggregating and rendering a permutation of an interval list
yields output text identical character for character: the aggregated
Report is already identical. -/
theorem c4_permutation_invariance (l₁ l₂ : List Interval) (hp : l₁.Perm l₂)
    (h7 : ∀ i ∈ l₁, i.weekday < WEEKDAYS) :
    render (from_intervals l₁) = render (from_intervals l₂) :=
  congrArg render (from_intervals_perm hp)

theorem c4_permutation_invariance_witness :
    pairList.Perm pairListRev ∧
    render (from_intervals pairList) = render (from_intervals pairListRev) :=
  have hp : pairList.Perm pairListRev := List.Perm.swap _ _ []
  ⟨hp, c4_permutation_invariance pairList pairListRev hp (by decide)⟩

theorem isDigit_toNat_bounds (c : Char) (h : c.isDigit = true) :
    48 ≤ c.toNat ∧ c.toNat ≤ 57 := by
  simp [Char.isDigit] at h
  obtain ⟨h1, h2⟩ := h
  exact ⟨UInt32.le_toNat_of_le (by norm_num) h1, UInt32.toNat_le_of_le (by norm_num) h2⟩

theorem isDigit_not_special (c : Char) (h : c.isDigit = true) :
    rustIsWhitespace c = false ∧ c ≠ '-' ∧ c ≠ '+' := by
  obtain ⟨h1, h2⟩ := isDigit_toNat_bounds c h
  refine ⟨?_, ?_, ?_⟩
  · simp only [rustIsWhitespace]
    simp only [Bool.or_eq_false_iff, Bool.and_eq_false_iff, decide_eq_false_iff_not]
    omega
  · intro e
    rw [e] at h1
    have hv : ('-' : Char).toNat = 45 := rfl
    omega
  · intro e
    rw [e] at h1
    have hv : ('+' : Char).toNat = 43 := rfl
    omega

theorem scanNumber_two (a b : Char) (rest : List Char)
    (ha : a.isDigit = true) (hb : b.isDigit = true) :
    scanNumber 2 (a :: b :: rest) = some (digitsVal [a, b], rest) := by
  obtain ⟨ha1, ha2⟩ := isDigit_toNat_bounds a ha
  obtain ⟨hb1, hb2⟩ := isDigit_toNat_bounds b hb
  have hle : digitsVal [a, b] ≤ maxI64 := by
    simp [digitsVal, digitVal, maxI64]
    omega
  simp [scanNumber, scanDigits, ha, hb, hle]

theorem scanNumber_four (a b c d : Char) (rest : List Char)
    (ha : a.isDigit = true) (hb : b.isDigit = true) (hc : c.isDigit = true)
    (hd : d.isDigit = true) :
    scanNumber 4 (a :: b :: c :: d :: rest) = some (digitsVal [a, b, c, d], rest) := by
  obtain ⟨ha1, ha2⟩ := isDigit_toNat_bounds a ha
  obtain ⟨hb1, hb2⟩ := isDigit_toNat_bounds b hb
  obtain ⟨hc1, hc2⟩ := isDigit_toNat_bounds c hc
  obtain ⟨hd1, hd2⟩ := isDigit_toNat_bounds d hd
  have hle : digitsVal [a, b, c, d] ≤ maxI64 := by
    simp [digitsVal, digitVal, maxI64]
    omega
  simp [scanNumber, scanDigits, ha, hb, hc, hd, hle]

/-- Evaluation of the chrono parse on a strictly-shaped input: the
scanner consumes the four-digit year, two-digit month, day, hours,
minutes and seconds, the two literals, and hands the fields to the
validation. -/
theorem chronoParseTS_strict
    (c0 c1 c2 c3 c4 c5 c6 c7 c8 c9 c10 c11 c12 c13 : Char)
    (h0 : c0.isDigit = true) (h1 : c1.isDigit = true) (h2 : c2.isDigit = true)
    (h3 : c3.isDigit = true) (h4 : c4.isDigit = true) (h5 : c5.isDigit = true)
    (h6 : c6.isDigit = true) (h7 : c7.isDigit = true) (h8 : c8.isDigit = true)
    (h9 : c9.isDigit = true) (h10 : c10.isDigit = true) (h11 : c11.isDigit = true)
    (h12 : c12.isDigit = true) (h13 : c13.isDigit = true) :
    chronoParseTS [c0, c1, c2, c3, c4, c5, c6, c7, 'T', c8, c9, c10, c11, c12, c13, 'Z'] =
      (if validParsedTS ⟨((digitsVal [c0, c1, c2, c3] : Nat) : Int), digitsVal [c4, c5],
          digitsVal [c6, c7], digitsVal [c8, c9], digitsVal [c10, c11],
          digitsVal [c12, c13]⟩ = true
       then some ⟨((digitsVal [c0, c1, c2, c3] : Nat) : Int), digitsVal [c4, c5],
          digitsVal [c6, c7], digitsVal [c8, c9], digitsVal [c10, c11],
          digitsVal [c12, c13]⟩
       else none) := by
  obtain ⟨hw0, hm0, hp0⟩ := isDigit_not_special c0 h0
  obtain ⟨hw4, -, -⟩ := isDigit_not_special c4 h4
  obtain ⟨hw6, -, -⟩ := isDigit_not_special c6 h6
  obtain ⟨hw8, -, -⟩ := isDigit_not_special c8 h8
  obtain ⟨hw10, -, -⟩ := isDigit_not_special c10 h10
  obtain ⟨hw12, -, -⟩ := isDigit_not_special c12 h12
  simp [chronoParseTS, scanSignedYear, hm0, hp0, List.dropWhile, hw0, hw4, hw6, hw8, hw10,
    hw12, scanNumber_four _ _ _ _ _ h0 h1 h2 h3, scanNumber_two _ _ _ h4 h5,
    scanNumber_two _ _ _ h6 h7, scanNumber_two _ _ _ h8 h9,
    scanNumber_two _ _ _ h10 h11, scanNumber_two _ _ _ h12 h13, expectChar]

theorem digitsVal_two (a b : Char) :
    digitsVal [a, b] = 10 * digitVal a + digitVal b := by
  simp [digitsVal, List.foldl]

theorem digitsVal_four (a b c d : Char) :
    digitsVal [a, b, c, d] =
      1000 * digitVal a + 100 * digitVal b + 10 * digitVal c + digitVal d := by
  simp [digitsVal, List.foldl]
  ring

/-- C7 counterexample: the input 2024018T090000Z (a one-digit day
field, 15 characters) does not match the claimed YYYYMMDDTHHMMSSZ
format, yet string_to_datetime parses it successfully, because chrono's
numeric scanner accepts 1 to width digits per field. -/
theorem c7_strict_format_counterexample :
    (string_to_datetime extNone "2024018T090000Z").isOk = true ∧
    strictFormatTS "2024018T090000Z" = false := by
  constructor
  · decide
  · decide

/-- C7 amended: the empty string yields the clock's current instant;
and every input that does match YYYYMMDDTHHMMSSZ with in-range fields
parses successfully.  The converse of the original claim is dropped:
chrono's lenient numeric scanning also accepts short fields, embedded
whitespace before numeric fields and signed years, as the
counterexample shows. -/
theorem c7_timestamp_amended :
    (∀ ext : Ext, string_to_datetime ext "" = .ok ext.now) ∧
    (∀ (ext : Ext) (s : String), strictFormatTS s = true →
      (string_to_datetime ext s).isOk = true) := by
  constructor
  · intro ext
    rfl
  · rintro ext ⟨data⟩ hs
    rcases data with _ | ⟨a0, _ | ⟨a1, _ | ⟨a2, _ | ⟨a3, _ | ⟨a4, _ | ⟨a5, _ | ⟨a6, _ |
      ⟨a7, _ | ⟨t, _ | ⟨a8, _ | ⟨a9, _ | ⟨a10, _ | ⟨a11, _ | ⟨a12, _ | ⟨a13, _ |
      ⟨z, _ | ⟨x, rest⟩⟩⟩⟩⟩⟩⟩⟩⟩⟩⟩⟩⟩⟩⟩⟩⟩ <;> try exact Bool.noConfusion hs
    simp only [strictFormatTS, Bool.and_eq_true, decide_eq_true_eq] at hs
    obtain ⟨⟨⟨⟨⟨⟨⟨⟨⟨⟨⟨⟨⟨⟨⟨⟨hd0, hd1⟩, hd2⟩, hd3⟩, hd4⟩, hd5⟩, hd6⟩, hd7⟩, ht⟩, hd8⟩,
      hd9⟩, hd10⟩, hd11⟩, hd12⟩, hd13⟩, hz⟩,
      ⟨⟨⟨⟨⟨⟨hmo1, hmo2⟩, hda1⟩, hda2⟩, hho⟩, hmi⟩, hse⟩⟩ := hs
    subst ht
    subst hz
    have hne : String.mk (a0 :: a1 :: a2 :: a3 :: a4 :: a5 :: a6 :: a7 :: 'T' :: a8 ::
        a9 :: a10 :: a11 :: a12 :: a13 :: 'Z' :: []) ≠ "" := by
      intro h
      simpa using congrArg String.data h
    rw [string_to_datetime, if_neg hne]
    have hps := chronoParseTS_strict a0 a1 a2 a3 a4 a5 a6 a7 a8 a9 a10 a11 a12 a13
      hd0 hd1 hd2 hd3 hd4 hd5 hd6 hd7 hd8 hd9 hd10 hd11 hd12 hd13
    have hy9999 : 1000 * digitVal a0 + 100 * digitVal a1 + 10 * digitVal a2 +
        digitVal a3 ≤ 9999 := by
      obtain ⟨hb0, hb0'⟩ := isDigit_toNat_bounds a0 hd0
      obtain ⟨hb1, hb1'⟩ := isDigit_toNat_bounds a1 hd1
      obtain ⟨hb2, hb2'⟩ := isDigit_toNat_bounds a2 hd2
      obtain ⟨hb3, hb3'⟩ := isDigit_toNat_bounds a3 hd3
      unfold digitVal
      omega
    have hvalid : validParsedTS ⟨((digitsVal [a0, a1, a2, a3] : Nat) : Int),
        digitsVal [a4, a5], digitsVal [a6, a7], digitsVal [a8, a9],
        digitsVal [a10, a11], digitsVal [a12, a13]⟩ = true := by
      simp only [validParsedTS, Bool.and_eq_true, decide_eq_true_eq, digitsVal_two,
        digitsVal_four]
      refine ⟨⟨⟨⟨⟨⟨⟨⟨?_, ?_⟩, ?_⟩, ?_⟩, ?_⟩, ?_⟩, ?_⟩, ?_⟩, ?_⟩
      · omega
      · exact_mod_cast le_trans hy9999 (by norm_num)
      · exact hmo1
      · exact hmo2
      · exact hda1
      · exact hda2
      · exact hho
      · exact hmi
      · exact le_trans hse (by norm_num)
    show (match chronoParseTS [a0, a1, a2, a3, a4, a5, a6, a7, 'T', a8, a9, a10, a11,
        a12, a13, 'Z'] with
      | some p => Except.ok (ε := ErrorKind) (tsEpoch p)
      | none => Except.error ErrorKind.FailedToParseInclusions).isOk = true
    rw [hps, if_pos hvalid]
    rfl

theorem c7_timestamp_amended_witness :
    string_to_datetime extNone "" = .ok extNone.now ∧
    (string_to_datetime extNone "20240108T090000Z").isOk = true :=
  ⟨c7_timestamp_amended.1 extNone,
   c7_timestamp_amended.2 extNone "20240108T090000Z" (by decide)⟩

/-- C8 counterexample: after the sentinel, a line consisting of another
left bracket is not fed to the interval builder as the claim states
(run re-executes the registry-loading branch and succeeds); under the
claim's reading of the body loop, the same input would feed the bracket
to the builder and fail. -/
theorem c8_second_sentinel_counterexample :
    (run extRun linesSecondSentinel).isOk = true ∧
    runClaim extRun linesSecondSentinel = .error (.kind .FailedToParseInclusions) := by
  constructor
  · decide
  · decide

/-- C8 amended: once the sentinel has been processed, every line whose
trimmed form is non-empty, not a closing bracket AND not a left
bracket, is stripped of leading and trailing commas and fed to the
interval builder, the resulting Interval appended on success; a line
trimming to a left bracket instead re-executes the registry-loading
branch, and blank or closing-bracket lines are skipped. -/
theorem c8_body_lines (ext : Ext) (st : RunState) (raw_line : String)
    (hfin : st.options_finished = true) :
    (rustTrim raw_line ≠ "[" → rustTrim raw_line ≠ "" → rustTrim raw_line ≠ "]" →
      runStep ext st raw_line =
        match new_interval ext st.valid_projects
            (trimMatchesChar ',' (rustTrim raw_line)) with
        | .ok interval => .ok { st with intervals := st.intervals ++ [interval] }
        | .error e => .error (.kind e)) ∧
    (rustTrim raw_line = "[" → runStep ext st raw_line = sentinelStep ext st) ∧
    (rustTrim raw_line = "" ∨ rustTrim raw_line = "]" →
      runStep ext st raw_line = .ok st) := by
  refine ⟨fun h1 h2 h3 => ?_, fun h1 => ?_, fun h1 => ?_⟩
  · simp [runStep, h1, h2, h3, hfin, bodyStep]
  · simp [runStep, h1]
  · rcases h1 with h1 | h1 <;> simp [runStep, h1]

theorem c8_body_lines_witness :
    runStep extRun stBody " x ," =
      match new_interval extRun stBody.valid_projects
          (trimMatchesChar ',' (rustTrim " x ,")) with
      | .ok interval => .ok { stBody with intervals := stBody.intervals ++ [interval] }
      | .error e => .error (.kind e) :=
  (c8_body_lines extRun stBody " x ," rfl).1 (by decide) (by decide) (by decide)

end Timesheet
